import Mathlib

/- Verification development for the FollowCursor core: the activity analyzer
   (src/followcursor/app/activity_analyzer.py) and the zoom engine
   (src/followcursor/app/zoom_engine.py).

   The Python code is shallowly embedded: Python floats are modelled as
   rationals, Python lists as Lean lists, and the mutable ZoomEngine object as
   a record threaded through state-passing functions.  Stacks kept as Python
   lists (append at the tail, pop from the tail, truncate at the front) are
   stored most-recent-first, so append becomes cons, pop becomes head/tail and
   the truncation of the oldest entry becomes dropLast. -/

set_option maxRecDepth 8000

namespace FollowCursor

/-- Square root on rationals, modelling math.sqrt.  It is exact on perfect
    squares (floor square root of the scaled numerator elsewhere); every call
    in the source is on a sum of squares, hence on a nonnegative argument. -/
def sqrtQ (q : ℚ) : ℚ :=
  if q ≤ 0 then 0 else (Nat.sqrt (q.num.toNat * q.den) : ℚ) / (q.den : ℚ)

/-- Python int() applied to a float: truncation toward zero. -/
def pyInt (q : ℚ) : ℤ :=
  if q < 0 then -((-q).floor) else q.floor

/-- Python str.lower applied characterwise (all reason strings are ASCII). -/
def lowerStr (s : String) : String :=
  String.mk (s.data.map Char.toLower)

/-- Stable insertion of an element into a list sorted by the key f: the new
    element goes before the first position whose key is not smaller, which
    reproduces the stability of the Python sort used by the source. -/
def insertOn {α : Type} (f : α → ℚ) (a : α) : List α → List α
  | [] => [a]
  | b :: l => if f b < f a then b :: insertOn f a l else a :: b :: l

/-- Stable ascending sort by a rational key, modelling list.sort(key=f). -/
def sortOn {α : Type} (f : α → ℚ) : List α → List α
  | [] => []
  | a :: l => insertOn f a (sortOn f l)

/-- Stable insertion for the descending sort. -/
def insertOnDesc {α : Type} (f : α → ℚ) (a : α) : List α → List α
  | [] => [a]
  | b :: l => if f a < f b then b :: insertOnDesc f a l else a :: b :: l

/-- Stable descending sort by a rational key, modelling
    list.sort(key=f, reverse=True). -/
def sortOnDesc {α : Type} (f : α → ℚ) : List α → List α
  | [] => []
  | a :: l => insertOnDesc f a (sortOnDesc f l)

/- ── Data model (src/followcursor/app/models.py) ──────────────────── -/

/-- A cursor position sample in physical pixels, timestamp in ms. -/
structure MousePosition where
  x : ℚ
  y : ℚ
  timestamp : ℚ
deriving DecidableEq, Repr

/-- A keystroke timestamp (no key identity). -/
structure KeyEvent where
  timestamp : ℚ
deriving DecidableEq, Repr

/-- A mouse click with position and timestamp. -/
structure ClickEvent where
  x : ℚ
  y : ℚ
  timestamp : ℚ
deriving DecidableEq, Repr

/-- A zoom/pan keyframe.  ZoomKeyframe.create in the source generates a fresh
    uuid4 string for the id; no claim depends on ids, so keyframes created by
    the analyzer carry the empty string as id here. -/
structure ZoomKeyframe where
  id : String
  timestamp : ℚ
  zoom : ℚ
  x : ℚ
  y : ℚ
  duration : ℚ
  reason : String
deriving DecidableEq, Repr

/-- Monitor rectangle; dict access in the source defaults left/top to 0 and
    width/height to 1. -/
structure MonitorRect where
  left : ℚ := 0
  top : ℚ := 0
  width : ℚ := 1
  height : ℚ := 1
deriving DecidableEq, Repr

/- ── Zoom engine (src/followcursor/app/zoom_engine.py) ────────────── -/

/-- Quintic ease-out, f t = 1 - (1-t)^5, written with the repeated products
    of the source. -/
def ease_out (t : ℚ) : ℚ :=
  1 - (1 - t) * (1 - t) * (1 - t) * (1 - t) * (1 - t)

/-- Maximum undo history depth (MAX_UNDO). -/
def MAX_UNDO : ℕ := 50

/-- The ZoomEngine state: keyframes, cached zoom/pan, and the undo and redo
    stacks of keyframe-list snapshots, stored most-recent-first. -/
structure ZoomEngine where
  keyframes : List ZoomKeyframe := []
  current_zoom : ℚ := 1
  current_pan_x : ℚ := 1/2
  current_pan_y : ℚ := 1/2
  undo_stack : List (List ZoomKeyframe) := []
  redo_stack : List (List ZoomKeyframe) := []
deriving DecidableEq, Repr

/-- push_undo: snapshot the current keyframe list onto the undo stack, drop
    the oldest entry once the depth exceeds MAX_UNDO, clear the redo stack.
    deepcopy in the source is the identity on immutable Lean values. -/
def ZoomEngine.push_undo (e : ZoomEngine) : ZoomEngine :=
  let s := e.keyframes :: e.undo_stack
  { e with undo_stack := if MAX_UNDO < s.length then s.dropLast else s,
           redo_stack := [] }

/-- undo: false on an empty stack, else push the live list onto the redo
    stack and pop the most recent snapshot into the live list. -/
def ZoomEngine.undo (e : ZoomEngine) : Bool × ZoomEngine :=
  match e.undo_stack with
  | [] => (false, e)
  | s :: rest =>
      (true, { e with keyframes := s, undo_stack := rest,
                      redo_stack := e.keyframes :: e.redo_stack })

/-- redo: symmetric to undo, using the redo stack. -/
def ZoomEngine.redo (e : ZoomEngine) : Bool × ZoomEngine :=
  match e.redo_stack with
  | [] => (false, e)
  | s :: rest =>
      (true, { e with keyframes := s, redo_stack := rest,
                      undo_stack := e.keyframes :: e.undo_stack })

/-- The backward scan of compute_at: the last keyframe in list order whose
    timestamp is at most time_ms, paired with the (zoom, x, y) of the keyframe
    just before it; prev carries the implicit (1, 1/2, 1/2) start state. -/
def findActive : List ZoomKeyframe → ℚ → (ℚ × ℚ × ℚ) → Option ((ℚ × ℚ × ℚ) × ZoomKeyframe)
  | [], _, _ => none
  | kf :: rest, time_ms, prev =>
      match findActive rest time_ms (kf.zoom, kf.x, kf.y) with
      | some r => some r
      | none => if kf.timestamp ≤ time_ms then some (prev, kf) else none

/-- compute_at: returns (zoom, pan_x, pan_y) at the given time by quintic
    ease-out interpolation from the previous state to the active keyframe. -/
def ZoomEngine.compute_at (e : ZoomEngine) (time_ms : ℚ) : ℚ × ℚ × ℚ :=
  match findActive e.keyframes time_ms (1, 1/2, 1/2) with
  | none => (1, 1/2, 1/2)
  | some (prev, active_kf) =>
      let elapsed := time_ms - active_kf.timestamp
      let progress := if 0 < active_kf.duration then min (elapsed / active_kf.duration) 1 else 1
      let eased := ease_out progress
      (prev.1 + (active_kf.zoom - prev.1) * eased,
       prev.2.1 + (active_kf.x - prev.2.1) * eased,
       prev.2.2 + (active_kf.y - prev.2.2) * eased)

/-- The method body of compute_at contains no assignment to any field of
    self: it reads self.keyframes and locals only.  Its state-passing form
    therefore returns the engine unchanged next to the computed triple. -/
def ZoomEngine.compute_at_run (e : ZoomEngine) (time_ms : ℚ) : (ℚ × ℚ × ℚ) × ZoomEngine :=
  (e.compute_at time_ms, e)

/-- update: evaluate compute_at and store the result in the cached fields. -/
def ZoomEngine.update (e : ZoomEngine) (time_ms : ℚ) : ZoomEngine :=
  let r := e.compute_at time_ms
  { e with current_zoom := r.1, current_pan_x := r.2.1, current_pan_y := r.2.2 }

/- ── Pan dampening (activity_analyzer.py, _dampen_pan) ────────────── -/

/-- Python _dampen_pan: shift the viewport center from (from_x, from_y) only as far
    as needed so the target lies within the margin-shrunk half viewport, then
    clamp so the viewport stays inside the source bounds. -/
def dampen_pan (target_x target_y zoom : ℚ) (margin : ℚ := 15/100)
    (from_x : ℚ := 1/2) (from_y : ℚ := 1/2) : ℚ × ℚ :=
  if zoom ≤ 1 then (1/2, 1/2) else
  let half_vw := (1/2) / zoom
  let half_vh := (1/2) / zoom
  let eff_hw := half_vw * (1 - margin)
  let eff_hh := half_vh * (1 - margin)
  let pan_x :=
    if target_x < from_x - eff_hw then target_x + eff_hw
    else if from_x + eff_hw < target_x then target_x - eff_hw
    else from_x
  let pan_y :=
    if target_y < from_y - eff_hh then target_y + eff_hh
    else if from_y + eff_hh < target_y then target_y - eff_hh
    else from_y
  (max half_vw (min (1 - half_vw) pan_x),
   max half_vh (min (1 - half_vh) pan_y))

/- ── Activity analyzer (src/followcursor/app/activity_analyzer.py) ── -/

/-- A per-pair kinematics sample: timestamp, speed, normalized position. -/
structure Sample where
  t : ℚ
  speed : ℚ
  nx : ℚ
  ny : ℚ
deriving DecidableEq, Repr

/-- Default sample used only where the source indexes a list it has already
    checked to be nonempty. -/
def dfltSample : Sample := ⟨0, 0, 0, 0⟩

/-- A scored window: (time, score, x, y, label) in the source. -/
structure WindowInfo where
  time : ℚ
  score : ℚ
  x : ℚ
  y : ℚ
  label : String
deriving DecidableEq, Repr

/-- Default WindowInfo for total indexing at positions known to be in
    range. -/
def dfltWindow : WindowInfo := ⟨0, 0, 0, 0, "mouse"⟩

/-- A window average from the first pass: center time, average speed and
    average normalized position. -/
structure WSpeed where
  t : ℚ
  speed : ℚ
  x : ℚ
  y : ℚ
deriving DecidableEq, Repr

/-- Step 1: per-sample speed (distance over elapsed ms, elapsed floored at 1)
    and clamped normalized position, one entry per consecutive pair. -/
def mkSamples (mon_left mon_top mon_w mon_h : ℚ) : List MousePosition → List Sample
  | p :: q :: rest =>
      let dt := max (q.timestamp - p.timestamp) 1
      let dx := q.x - p.x
      let dy := q.y - p.y
      let speed := sqrtQ (dx * dx + dy * dy) / dt
      let nx := max 0 (min 1 ((q.x - mon_left) / mon_w))
      let ny := max 0 (min 1 ((q.y - mon_top) / mon_h))
      ⟨q.timestamp, speed, nx, ny⟩ :: mkSamples mon_left mon_top mon_w mon_h (q :: rest)
  | _ => []

/-- Step 2 first pass: average speed and position per 500 ms window; empty
    windows get speed 0 and position (1/2, 1/2). -/
def windowSpeeds (samples : List Sample) (n_windows : ℕ) : List WSpeed :=
  (List.range n_windows).map fun wi =>
    let t_start : ℚ := (wi : ℚ) * 500
    let t_end := t_start + 500
    let bucket := samples.filter fun s => decide (t_start ≤ s.t) && decide (s.t < t_end)
    if bucket.isEmpty then ⟨(t_start + t_end) / 2, 0, 1/2, 1/2⟩
    else
      ⟨(t_start + t_end) / 2,
       (bucket.map (·.speed)).sum / (bucket.length : ℚ),
       (bucket.map (·.nx)).sum / (bucket.length : ℚ),
       (bucket.map (·.ny)).sum / (bucket.length : ℚ)⟩

/-- Step 2 second pass, one window: typing if the mouse is slow enough and
    the keys-per-second reach 1.0, else a mouse settlement when the speed
    dropped by a factor of at least 3 from the previous window, else a low
    fallback mouse score. -/
def scoreWindow (key_ts : List ℚ) (t_start : ℚ) (prevSpeed : Option ℚ) (w : WSpeed) : WindowInfo :=
  let t_end := t_start + 500
  let n_keys := (key_ts.filter fun kt => decide (t_start ≤ kt) && decide (kt < t_end)).length
  let kps : ℚ := (n_keys : ℚ) / (500 / 1000)
  let mouse_is_still := w.speed < 1/2
  let mouse_slow_enough := w.speed < 3
  if mouse_slow_enough ∧ 1 ≤ kps then
    let base_score := min (kps / 10) 1 * 1
    ⟨w.t, if mouse_is_still then base_score else base_score * (7/10), w.x, w.y, "typing"⟩
  else
    match prevSpeed with
    | some prev_speed =>
        if 0 < prev_speed ∧ w.speed < prev_speed then
          let decel_ratio := prev_speed / max w.speed (1/100)
          if 3 ≤ decel_ratio then
            ⟨w.t, min (decel_ratio / 10) 1 * (1/2), w.x, w.y, "mouse"⟩
          else ⟨w.t, w.speed * (1/10), w.x, w.y, "mouse"⟩
        else ⟨w.t, w.speed * (1/10), w.x, w.y, "mouse"⟩
    | none => ⟨w.t, w.speed * (1/10), w.x, w.y, "mouse"⟩

/-- Step 2 second pass over all windows, carrying the window start time and
    the previous window average speed. -/
def scoreWindowsAux (key_ts : List ℚ) : ℚ → Option ℚ → List WSpeed → List WindowInfo
  | _, _, [] => []
  | t_start, prevSpeed, w :: rest =>
      scoreWindow key_ts t_start prevSpeed w ::
        scoreWindowsAux key_ts (t_start + 500) (some w.speed) rest

/-- Mouse settlement peaks: score at least max(2 * median, 0.075) and a local
    maximum among the mouse windows (boundary windows pass the missing
    side). -/
def mousePeaks (mouse_windows : List WindowInfo) : List WindowInfo :=
  match mouse_windows with
  | [] => []
  | _ :: _ =>
    let m_scores := sortOn id (mouse_windows.map (·.score))
    let m_median := m_scores.getD (m_scores.length / 2) 0
    let m_threshold := max (m_median * 2) ((1/2) * (15/100))
    (List.range mouse_windows.length).filterMap fun i =>
      let w := mouse_windows.getD i dfltWindow
      if w.score < m_threshold then none
      else
        let left_ok := i = 0 ∨ (mouse_windows.getD (i - 1) dfltWindow).score ≤ w.score
        let right_ok :=
          i = mouse_windows.length - 1 ∨ (mouse_windows.getD (i + 1) dfltWindow).score ≤ w.score
        if left_ok ∧ right_ok then some w else none

/-- Typing runs: consecutive typing windows whose gap is at most 1.5 windows
    belong to one run. -/
def typingRuns : List WindowInfo → List (List WindowInfo)
  | [] => []
  | [w] => [[w]]
  | w :: w2 :: rest =>
      match typingRuns (w2 :: rest) with
      | [] => [[w]]
      | r :: rs =>
          if w2.time - w.time ≤ 500 * (3/2) then (w :: r) :: rs else [w] :: r :: rs

/-- First highest-scoring element of a run, as Python max with a key. -/
def runBest : List WindowInfo → WindowInfo
  | [] => dfltWindow
  | w :: ws => ws.foldl (fun b x => if b.score < x.score then x else b) w

/-- Typing peaks: the best window of each typing run. -/
def typingPeaks (typing_windows : List WindowInfo) : List WindowInfo :=
  (typingRuns typing_windows).map runBest

/-- The greedy non-overlapping click-burst scan: gather every click within
    3000 ms of the current one, accept the burst when it has at least
    CLICK_MIN_COUNT = 1 clicks and starts after the last consumed burst, and
    emit a peak at the burst centroid. -/
def clickScan (mon_left mon_top mon_w mon_h : ℚ) (used_up_to : ℚ) :
    List ClickEvent → List WindowInfo
  | [] => []
  | c :: rest =>
      let tailBurst := rest.takeWhile fun d => decide (d.timestamp - c.timestamp ≤ 3000)
      let burst := c :: tailBurst
      if 1 ≤ burst.length ∧ used_up_to < c.timestamp then
        let cx := (burst.map (·.x)).sum / (burst.length : ℚ)
        let cy := (burst.map (·.y)).sum / (burst.length : ℚ)
        let nx := max 0 (min 1 ((cx - mon_left) / mon_w))
        let ny := max 0 (min 1 ((cy - mon_top) / mon_h))
        let center_t := (burst.map (·.timestamp)).sum / (burst.length : ℚ)
        let score := min ((burst.length : ℚ) / 5) 1 * (4/5)
        ⟨center_t, score, nx, ny, "click"⟩ ::
          clickScan mon_left mon_top mon_w mon_h (burst.getLastD c).timestamp
            (rest.drop tailBurst.length)
      else
        clickScan mon_left mon_top mon_w mon_h used_up_to rest
termination_by l => l.length
decreasing_by
  all_goals simp only [List.length_cons, List.length_drop]
  all_goals omega

/-- Click peaks: the burst scan over clicks sorted by time, guarded as in the
    source by the click list being nonempty. -/
def clickPeaks (mon_left mon_top mon_w mon_h : ℚ) (click_events : List ClickEvent) :
    List WindowInfo :=
  if 1 ≤ click_events.length then
    clickScan mon_left mon_top mon_w mon_h (-1) (sortOn (·.timestamp) click_events)
  else []

/-- The dual merge criterion of step 4: a peak joins the current cluster when
    it is within min_gap_ms of any member, or shares a click/typing label
    with a member, is spatially within 0.15 and within the extended
    per-label gap. -/
def shouldMerge (min_gap_ms : ℚ) (cluster : List WindowInfo) (p : WindowInfo) : Bool :=
  cluster.any fun cp =>
    let gap := p.time - cp.time
    decide (gap < min_gap_ms) ||
      (decide (p.label = cp.label) &&
       (decide (p.label = "click") || decide (p.label = "typing")) &&
       decide (sqrtQ ((p.x - cp.x) * (p.x - cp.x) + (p.y - cp.y) * (p.y - cp.y)) < 3/20) &&
       decide (gap < if p.label = "click" then 8000 else 6000))

/-- Greedy cluster accumulation over the time-sorted peaks. -/
def clustersAux (min_gap_ms : ℚ) : List WindowInfo → List WindowInfo → List (List WindowInfo)
  | current, [] => [current]
  | current, p :: rest =>
      if shouldMerge min_gap_ms current p then
        clustersAux min_gap_ms (current ++ [p]) rest
      else current :: clustersAux min_gap_ms [p] rest

/-- Highest peak score of a cluster, for the top-N ranking. -/
def maxScore : List WindowInfo → ℚ
  | [] => 0
  | w :: ws => ws.foldl (fun a x => max a x.score) w.score

/-- Per-cluster derived data, the cluster_info dict of the source. -/
structure ClusterInfo where
  start : ℚ
  end_ : ℚ
  zoom_in_time : ℚ
  pan_x : ℚ
  pan_y : ℚ
  raw_x : ℚ
  raw_y : ℚ
  hold_ms : ℚ
  label : String
  reason : String
deriving DecidableEq, Repr

/-- Step 5 precomputation for one cluster: best peak, time span,
    score-weighted centroid, dampened pan from center, anticipated zoom-in
    time, and label-dependent hold and reason. -/
def mkClusterInfo (follow_cursor : Bool) (zoom_level : ℚ) (cluster : List WindowInfo) :
    ClusterInfo :=
  let c0 := cluster.headD dfltWindow
  let best := cluster.foldl (fun b w => if b.score < w.score then w else b) c0
  let cluster_start := cluster.foldl (fun a w => min a w.time) c0.time
  let cluster_end := cluster.foldl (fun a w => max a w.time) c0.time
  let total_score := (cluster.map (·.score)).sum
  let rawp : ℚ × ℚ :=
    if follow_cursor ∧ 0 < total_score then
      ((cluster.map (fun p => p.x * p.score)).sum / total_score,
       (cluster.map (fun p => p.y * p.score)).sum / total_score)
    else if follow_cursor then (best.x, best.y)
    else (1/2, 1/2)
  let pan := dampen_pan rawp.1 rawp.2 zoom_level
  let zoom_in_time := max 0 (cluster_start - 600 - 100)
  let hr : ℚ × String :=
    if best.label = "typing" then (3000, "Typing activity detected")
    else if best.label = "click" then (2000, "Click cluster detected")
    else (2000, "Cursor settled here")
  ⟨cluster_start, cluster_end, zoom_in_time, pan.1, pan.2, rawp.1, rawp.2,
   hr.1, best.label, hr.2⟩

/-- Chain accumulation: a cluster joins the current chain when the gap from
    the previous cluster end plus hold is below 3000 ms and the chain holds
    fewer than 4 clusters. -/
def chainsAux (prev : ClusterInfo) (current : List ClusterInfo) :
    List ClusterInfo → List (List ClusterInfo)
  | [] => [current]
  | ci :: rest =>
      if ci.start - (prev.end_ + prev.hold_ms) < 3000 ∧ current.length < 4 then
        chainsAux ci (current ++ [ci]) rest
      else current :: chainsAux ci [ci] rest

/-- Chains of clusters to pan between, starting from the first cluster. -/
def buildChains : List ClusterInfo → List (List ClusterInfo)
  | [] => []
  | i0 :: rest => chainsAux i0 [i0] rest

/-- Pan keyframes for the tail of a chain: each pan is dampened relative to
    the previous pan, lasts proportionally to the distance (clamped to
    [400, 700]), and is scheduled to arrive 100 ms early but never before the
    previous cluster end nor before the zoom-in completes.  Returns the pan
    keyframes and the last cluster of the chain. -/
def emitPans (zoom_level zoom_in_time : ℚ) :
    ClusterInfo → ℚ → ℚ → List ClusterInfo → List ZoomKeyframe × ClusterInfo
  | prev, _, _, [] => ([], prev)
  | prev, prev_pan_x, prev_pan_y, curr :: rest =>
      let cp := dampen_pan curr.raw_x curr.raw_y zoom_level (15/100) prev_pan_x prev_pan_y
      let dx := cp.1 - prev_pan_x
      let dy := cp.2 - prev_pan_y
      let dist := sqrtQ (dx * dx + dy * dy)
      let pan_dur : ℚ := min 700 (max 400 ((pyInt (dist * 1200) : ℤ) : ℚ))
      let desired_arrive := curr.start - 100
      let pan_time0 := max prev.end_ (desired_arrive - pan_dur)
      let pan_time := max (zoom_in_time + 600) pan_time0
      let kf : ZoomKeyframe :=
        ⟨"", pan_time, zoom_level, cp.1, cp.2, pan_dur, "Pan to: " ++ lowerStr curr.reason⟩
      let r := emitPans zoom_level zoom_in_time curr cp.1 cp.2 rest
      (kf :: r.1, r.2)

/-- Keyframes of one chain: the zoom-in of the first cluster, the pans, and
    the zoom-out after the last cluster hold, clamped to the recording
    duration. -/
def emitChain (zoom_level duration : ℚ) : List ClusterInfo → List ZoomKeyframe
  | [] => []
  | first :: rest =>
      let zoom_in_time := first.zoom_in_time
      let kf_in : ZoomKeyframe :=
        ⟨"", zoom_in_time, zoom_level, first.pan_x, first.pan_y, 600, first.reason⟩
      let r := emitPans zoom_level zoom_in_time first first.pan_x first.pan_y rest
      let last := r.2
      let zoom_out_time0 := last.end_ + last.hold_ms
      let zoom_out_time := if duration < zoom_out_time0 then duration else zoom_out_time0
      let kf_out : ZoomKeyframe :=
        ⟨"", zoom_out_time, 1, 1/2, 1/2, 600 * 2, "Zoom out after: " ++ lowerStr last.reason⟩
      kf_in :: (r.1 ++ [kf_out])

/-- All keyframes, chain by chain, in emission order (before the final
    timestamp sort of the source). -/
def keyframesOfChains (zoom_level duration : ℚ) : List (List ClusterInfo) → List ZoomKeyframe
  | [] => []
  | c :: cs => emitChain zoom_level duration c ++ keyframesOfChains zoom_level duration cs

/-- analyze_activity up to but not including the final sort by timestamp.
    Returns none exactly where the source raises: when the peak list is empty
    after the fallback (possible only for max_clusters = 0), indexing
    peaks[0] fails. -/
def analyzeUnsorted (mouse_track : List MousePosition) (monitor_rect : MonitorRect)
    (key_events : List KeyEvent) (click_events : List ClickEvent)
    (max_clusters : ℕ) (zoom_level : ℚ) (follow_cursor : Bool) (min_gap_ms : ℚ) :
    Option (List ZoomKeyframe) :=
  if mouse_track.length < 10 then some [] else
  let mon_left := monitor_rect.left
  let mon_top := monitor_rect.top
  let mon_w := max monitor_rect.width 1
  let mon_h := max monitor_rect.height 1
  let key_ts := key_events.map (·.timestamp)
  let samples := mkSamples mon_left mon_top mon_w mon_h mouse_track
  if samples.isEmpty then some [] else
  let duration := (samples.getLastD dfltSample).t
  let n_windows := (max 1 (pyInt (duration / 500))).toNat
  let wspeeds := windowSpeeds samples n_windows
  let windows := scoreWindowsAux key_ts 0 none wspeeds
  if windows.isEmpty then some [] else
  let mouse_windows := windows.filter fun w => decide (w.label = "mouse")
  let typing_windows := windows.filter fun w => decide (w.label = "typing")
  let peaks0 := mousePeaks mouse_windows ++ typingPeaks typing_windows ++
    clickPeaks mon_left mon_top mon_w mon_h click_events
  let peaks :=
    if peaks0.isEmpty then (sortOnDesc (·.score) windows).take max_clusters else peaks0
  match sortOn (·.time) peaks with
  | [] => none
  | p :: ps =>
    let clusters0 := clustersAux min_gap_ms [p] ps
    let clusters1 := (sortOnDesc maxScore clusters0).take max_clusters
    let clusters2 := sortOn (fun c => (c.headD dfltWindow).time) clusters1
    let cluster_info := clusters2.map (mkClusterInfo follow_cursor zoom_level)
    some (keyframesOfChains zoom_level duration (buildChains cluster_info))

/-- analyze_activity: the full pipeline, ending with the stable sort of all
    emitted keyframes by timestamp. -/
def analyze_activity (mouse_track : List MousePosition) (monitor_rect : MonitorRect)
    (key_events : List KeyEvent := []) (click_events : List ClickEvent := [])
    (max_clusters : ℕ := 6) (zoom_level : ℚ := 3/2) (follow_cursor : Bool := true)
    (min_gap_ms : ℚ := 4000) : Option (List ZoomKeyframe) :=
  (analyzeUnsorted mouse_track monitor_rect key_events click_events max_clusters
      zoom_level follow_cursor min_gap_ms).map (sortOn (·.timestamp))

/- ── Edit sequences over the engine (for the undo/redo round trip) ── -/

/-- One undoable edit as the spec prescribes: push_undo immediately followed
    by a mutation of the keyframe list. -/
def ZoomEngine.edit (e : ZoomEngine) (m : List ZoomKeyframe → List ZoomKeyframe) : ZoomEngine :=
  let e2 := e.push_undo
  { e2 with keyframes := m e2.keyframes }

/-- A sequence of undoable edits applied in order. -/
def ZoomEngine.applyEdits (e : ZoomEngine) :
    List (List ZoomKeyframe → List ZoomKeyframe) → ZoomEngine
  | [] => e
  | m :: ms => (e.edit m).applyEdits ms

/-- n calls of undo, keeping only the resulting state. -/
def ZoomEngine.undoN (e : ZoomEngine) : ℕ → ZoomEngine
  | 0 => e
  | n + 1 => (e.undo).2.undoN n

/-- n calls of redo, keeping only the resulting state. -/
def ZoomEngine.redoN (e : ZoomEngine) : ℕ → ZoomEngine
  | 0 => e
  | n + 1 => (e.redo).2.redoN n

/-- The keyframe-list states traversed by a sequence of edits, most recent
    first: exactly the snapshots push_undo takes, newest at the head. -/
def editTrace (k : List ZoomKeyframe) :
    List (List ZoomKeyframe → List ZoomKeyframe) → List (List ZoomKeyframe)
  | [] => []
  | m :: ms => editTrace (m k) ms ++ [k]

/-- The keyframe list after applying a sequence of mutations. -/
def applyMuts (k : List ZoomKeyframe) :
    List (List ZoomKeyframe → List ZoomKeyframe) → List ZoomKeyframe
  | [] => k
  | m :: ms => applyMuts (m k) ms

/- ── Predicates used to state the claims ──────────────────────────── -/

/-- A keyframe counted as zoomed-in by the spec: zoom above 1.01. -/
def zoomedIn (k : ZoomKeyframe) : Bool :=
  decide ((101 : ℚ) / 100 < k.zoom)

/-- A chained pan keyframe, identified as the claim does by its reason
    carrying the prefix-text Pan to: . -/
def isPanReason (k : ZoomKeyframe) : Bool :=
  match k.reason.data with
  | 'P' :: 'a' :: 'n' :: ' ' :: 't' :: 'o' :: ':' :: _ => true
  | _ => false

/-- A keyframe that opens a zoom-in cluster: zoomed in and not a chained
    pan. -/
def opensCluster (k : ZoomKeyframe) : Bool :=
  zoomedIn k && !(isPanReason k)

/-- Number of distinct zoom-in clusters represented in a keyframe list,
    counting chained pans as part of their opening cluster. -/
def zoomInCount (l : List ZoomKeyframe) : ℕ :=
  l.countP opensCluster

/-- Every keyframe with zoom above 1.01 is followed, later in the list, by a
    keyframe with zoom at most 1.01. -/
def noDanglingZoomIn : List ZoomKeyframe → Bool
  | [] => true
  | k :: rest =>
      (!(zoomedIn k) || rest.any fun j => !(zoomedIn j)) && noDanglingZoomIn rest

/-- Whether a character list contains the letters of the word click
    consecutively. -/
def hasClickChars : List Char → Bool
  | 'c' :: 'l' :: 'i' :: 'c' :: 'k' :: _ => true
  | _ :: rest => hasClickChars rest
  | [] => false

/-- A keyframe whose reason mentions click, checked case-insensitively as
    the test suite of the repository does. -/
def mentions_click (k : ZoomKeyframe) : Bool :=
  hasClickChars (lowerStr k.reason).data

/- ── Concrete inputs used by witnesses and counterexamples ────────── -/

/-- The 1920 by 1080 monitor at the origin. -/
def monC : MonitorRect := ⟨0, 0, 1920, 1080⟩

/-- Eleven stationary samples at the monitor center, one per ms: recording
    duration 10 ms after the kinematics pass. -/
def trackC : List MousePosition :=
  (List.range 11).map fun i => ⟨960, 540, (i : ℚ)⟩

/-- Eleven stationary samples at the monitor center, one per 160 ms:
    recording duration 1600 ms, three analysis windows. -/
def track16 : List MousePosition :=
  (List.range 11).map fun i => ⟨960, 540, 160 * (i : ℚ)⟩

/-- A short isolated typing burst beginning at 1000 ms. -/
def keysB : List KeyEvent := [⟨1000⟩, ⟨1050⟩]

/-- A fresh engine. -/
def e0 : ZoomEngine := {}

/-- A keyframe whose timestamp records the edit index. -/
def kfT (i : ℕ) : ZoomKeyframe := ⟨"", (i : ℚ), 1, 0, 0, 0, ""⟩

/-- Fifty-one edits, the i-th replacing the keyframe list with the singleton
    carrying index i. -/
def ms51 : List (List ZoomKeyframe → List ZoomKeyframe) :=
  (List.range 51).map fun i _ => [kfT (i + 1)]

/-- The keyframe of the engine used by the interpolation witnesses. -/
def kfD : ZoomKeyframe := ⟨"a", 1000, 2, 3/10, 7/10, 600, ""⟩

/-- An engine holding that single keyframe. -/
def engineD : ZoomEngine := { keyframes := [kfD] }

/- ════════════════════════════ Theorems ═══════════════════════════ -/

theorem insertOn_perm {α : Type} (f : α → ℚ) (a : α) (l : List α) :
    (insertOn f a l).Perm (a :: l) := by
  induction l with
  | nil => exact List.Perm.refl _
  | cons b l ih =>
      by_cases h : f b < f a
      · simpa [insertOn, h] using ((ih.cons b).trans (List.Perm.swap a b l))
      · simp [insertOn, h]

theorem sortOn_perm {α : Type} (f : α → ℚ) (l : List α) :
    (sortOn f l).Perm l := by
  induction l with
  | nil => exact List.Perm.refl _
  | cons a l ih => exact (insertOn_perm f a (sortOn f l)).trans (ih.cons a)

theorem insertOnDesc_perm {α : Type} (f : α → ℚ) (a : α) (l : List α) :
    (insertOnDesc f a l).Perm (a :: l) := by
  induction l with
  | nil => exact List.Perm.refl _
  | cons b l ih =>
      by_cases h : f a < f b
      · simpa [insertOnDesc, h] using ((ih.cons b).trans (List.Perm.swap a b l))
      · simp [insertOnDesc, h]

theorem sortOnDesc_perm {α : Type} (f : α → ℚ) (l : List α) :
    (sortOnDesc f l).Perm l := by
  induction l with
  | nil => exact List.Perm.refl _
  | cons a l ih => exact (insertOnDesc_perm f a (sortOnDesc f l)).trans (ih.cons a)

theorem sortOn_length {α : Type} (f : α → ℚ) (l : List α) :
    (sortOn f l).length = l.length :=
  (sortOn_perm f l).length_eq

theorem mem_sortOn {α : Type} (f : α → ℚ) (l : List α) {x : α} :
    x ∈ sortOn f l ↔ x ∈ l :=
  (sortOn_perm f l).mem_iff

theorem countP_sortOn {α : Type} (f : α → ℚ) (p : α → Bool) (l : List α) :
    (sortOn f l).countP p = l.countP p :=
  (sortOn_perm f l).countP_eq p

/- ── C4: pan dampening ────────────────────────────────────────────── -/

/-- C4: dampen_pan returns the centre (1/2, 1/2) whenever zoom is at most 1;
    for zoom above 1 each returned coordinate lies in the band
    [(1/2)/zoom, 1 - (1/2)/zoom]; and at the concrete Scenario E input
    dampen_pan (9/10) (9/10) 2 both coordinates are above 1/2 and at most
    3/4. -/
theorem dampen_pan_bounds (target_x target_y zoom margin from_x from_y : ℚ) :
    (zoom ≤ 1 → dampen_pan target_x target_y zoom margin from_x from_y = (1/2, 1/2)) ∧
    (1 < zoom →
      ((1/2) / zoom ≤ (dampen_pan target_x target_y zoom margin from_x from_y).1 ∧
       (dampen_pan target_x target_y zoom margin from_x from_y).1 ≤ 1 - (1/2) / zoom ∧
       (1/2) / zoom ≤ (dampen_pan target_x target_y zoom margin from_x from_y).2 ∧
       (dampen_pan target_x target_y zoom margin from_x from_y).2 ≤ 1 - (1/2) / zoom)) ∧
    (1/2 < (dampen_pan (9/10) (9/10) 2).1 ∧ (dampen_pan (9/10) (9/10) 2).1 ≤ 3/4 ∧
     1/2 < (dampen_pan (9/10) (9/10) 2).2 ∧ (dampen_pan (9/10) (9/10) 2).2 ≤ 3/4) := by
  refine ⟨?_, ?_, by with_unfolding_all decide⟩
  · intro h
    simp [dampen_pan, h]
  · intro h
    have hn : ¬ zoom ≤ 1 := not_le.mpr h
    have hz : (0 : ℚ) < zoom := lt_trans one_pos h
    have hband : (1/2) / zoom ≤ 1 - (1/2) / zoom := by
      have hh : (1/2) / zoom ≤ 1/2 := by
        rw [div_le_iff₀ hz]
        nlinarith
      linarith
    simp only [dampen_pan, if_neg hn]
    refine ⟨le_max_left _ _, max_le hband (min_le_left _ _),
            le_max_left _ _, max_le hband (min_le_left _ _)⟩

/-- Witness for C4 at zoom 1 (first branch) and zoom 2 (band branch). -/
theorem dampen_pan_bounds_witness :
    dampen_pan (3/10) (7/10) 1 (15/100) (1/2) (1/2) = (1/2, 1/2) ∧
    ((1/2) / 2 ≤ (dampen_pan (9/10) (9/10) 2 (15/100) (1/2) (1/2)).1 ∧
     (dampen_pan (9/10) (9/10) 2 (15/100) (1/2) (1/2)).1 ≤ 1 - (1/2) / 2 ∧
     (1/2) / 2 ≤ (dampen_pan (9/10) (9/10) 2 (15/100) (1/2) (1/2)).2 ∧
     (dampen_pan (9/10) (9/10) 2 (15/100) (1/2) (1/2)).2 ≤ 1 - (1/2) / 2) :=
  ⟨(dampen_pan_bounds (3/10) (7/10) 1 (15/100) (1/2) (1/2)).1 (by norm_num),
   (dampen_pan_bounds (9/10) (9/10) 2 (15/100) (1/2) (1/2)).2.1 (by norm_num)⟩

/- ── C1: interpolation never overshoots ───────────────────────────── -/

theorem findActive_timestamp_le (l : List ZoomKeyframe) (t : ℚ) (prev r : ℚ × ℚ × ℚ)
    (kf : ZoomKeyframe) (h : findActive l t prev = some (r, kf)) : kf.timestamp ≤ t := by
  induction l generalizing prev with
  | nil => simp [findActive] at h
  | cons a l ih =>
      simp only [findActive] at h
      cases hfa : findActive l t (a.zoom, a.x, a.y) with
      | some q =>
          rw [hfa] at h
          cases h
          exact ih _ hfa
      | none =>
          rw [hfa] at h
          split_ifs at h with hts
          · cases h
            exact hts

theorem ease_out_mem_unit (t : ℚ) (h0 : 0 ≤ t) (h1 : t ≤ 1) :
    0 ≤ ease_out t ∧ ease_out t ≤ 1 := by
  unfold ease_out
  have hi0 : 0 ≤ 1 - t := by linarith
  have hi1 : 1 - t ≤ 1 := by linarith
  have n2 : 0 ≤ (1 - t) * (1 - t) := mul_nonneg hi0 hi0
  have n3 : 0 ≤ (1 - t) * (1 - t) * (1 - t) := mul_nonneg n2 hi0
  have n4 : 0 ≤ (1 - t) * (1 - t) * (1 - t) * (1 - t) := mul_nonneg n3 hi0
  have n5 : 0 ≤ (1 - t) * (1 - t) * (1 - t) * (1 - t) * (1 - t) := mul_nonneg n4 hi0
  have b2 : (1 - t) * (1 - t) ≤ 1 := mul_le_one₀ hi1 hi0 hi1
  have b3 : (1 - t) * (1 - t) * (1 - t) ≤ 1 := mul_le_one₀ b2 hi0 hi1
  have b4 : (1 - t) * (1 - t) * (1 - t) * (1 - t) ≤ 1 := mul_le_one₀ b3 hi0 hi1
  have b5 : (1 - t) * (1 - t) * (1 - t) * (1 - t) * (1 - t) ≤ 1 := mul_le_one₀ b4 hi0 hi1
  constructor <;> linarith

theorem lerp_bounds (a b u : ℚ) (h0 : 0 ≤ u) (h1 : u ≤ 1) :
    min a b ≤ a + (b - a) * u ∧ a + (b - a) * u ≤ max a b := by
  rcases le_total a b with hab | hab
  · rw [min_eq_left hab, max_eq_right hab]
    constructor <;> nlinarith
  · rw [min_eq_right hab, max_eq_left hab]
    constructor <;> nlinarith

/-- C1: whenever compute_at finds an active keyframe, each returned component
    lies between the previous state value and the active keyframe target
    value, endpoints included — the engine never overshoots.  The previous
    state is (1, 1/2, 1/2) when the active keyframe is first. -/
theorem compute_at_never_overshoots (e : ZoomEngine) (t : ℚ) (prev : ℚ × ℚ × ℚ)
    (kf : ZoomKeyframe) (h : findActive e.keyframes t (1, 1/2, 1/2) = some (prev, kf)) :
    (min prev.1 kf.zoom ≤ (e.compute_at t).1 ∧ (e.compute_at t).1 ≤ max prev.1 kf.zoom) ∧
    (min prev.2.1 kf.x ≤ (e.compute_at t).2.1 ∧ (e.compute_at t).2.1 ≤ max prev.2.1 kf.x) ∧
    (min prev.2.2 kf.y ≤ (e.compute_at t).2.2 ∧ (e.compute_at t).2.2 ≤ max prev.2.2 kf.y) := by
  have hts := findActive_timestamp_le e.keyframes t _ prev kf h
  have hprog : 0 ≤ (if 0 < kf.duration then min ((t - kf.timestamp) / kf.duration) 1 else 1) ∧
      (if 0 < kf.duration then min ((t - kf.timestamp) / kf.duration) 1 else 1) ≤ 1 := by
    split_ifs with hd
    · exact ⟨le_min (div_nonneg (by linarith) (le_of_lt hd)) one_pos.le, min_le_right _ _⟩
    · exact ⟨one_pos.le, le_refl 1⟩
  have he := ease_out_mem_unit _ hprog.1 hprog.2
  simp only [ZoomEngine.compute_at, h]
  exact ⟨lerp_bounds _ _ _ he.1 he.2, lerp_bounds _ _ _ he.1 he.2,
         lerp_bounds _ _ _ he.1 he.2⟩

/-- Witness for C1 on a one-keyframe engine in mid-transition. -/
theorem compute_at_never_overshoots_witness :
    findActive engineD.keyframes 1300 (1, 1/2, 1/2) = some ((1, 1/2, 1/2), kfD) ∧
    min (1 : ℚ) kfD.zoom ≤ (engineD.compute_at 1300).1 ∧
    (engineD.compute_at 1300).1 ≤ max (1 : ℚ) kfD.zoom := by
  have hfa : findActive engineD.keyframes 1300 (1, 1/2, 1/2) = some ((1, 1/2, 1/2), kfD) := by
    with_unfolding_all decide
  have hb := compute_at_never_overshoots engineD 1300 (1, 1/2, 1/2) kfD hfa
  exact ⟨hfa, hb.1.1, hb.1.2⟩

/- ── C10: compute_at is a pure read ───────────────────────────────── -/

/-- C10: the state-passing form of compute_at leaves every field of the
    engine unchanged — keyframes, both history stacks and the cached
    zoom/pan — and a second call at the same time on the resulting state
    returns the same triple. -/
theorem compute_at_is_pure_read (e : ZoomEngine) (t : ℚ) :
    (e.compute_at_run t).2.keyframes = e.keyframes ∧
    (e.compute_at_run t).2.undo_stack = e.undo_stack ∧
    (e.compute_at_run t).2.redo_stack = e.redo_stack ∧
    (e.compute_at_run t).2.current_zoom = e.current_zoom ∧
    (e.compute_at_run t).2.current_pan_x = e.current_pan_x ∧
    (e.compute_at_run t).2.current_pan_y = e.current_pan_y ∧
    ((e.compute_at_run t).2.compute_at_run t).1 = (e.compute_at_run t).1 :=
  ⟨rfl, rfl, rfl, rfl, rfl, rfl, rfl⟩

/- ── C8: minimum-data gate ────────────────────────────────────────── -/

/-- C8: with fewer than 10 mouse samples, analyze_activity returns the empty
    keyframe list for every monitor rectangle, key list, click list and
    configuration, and raises nothing (the embedding returns some []). -/
theorem analyze_activity_min_data_gate (mouse_track : List MousePosition)
    (monitor_rect : MonitorRect) (key_events : List KeyEvent)
    (click_events : List ClickEvent) (max_clusters : ℕ) (zoom_level : ℚ)
    (follow_cursor : Bool) (min_gap_ms : ℚ) (h : mouse_track.length < 10) :
    analyze_activity mouse_track monitor_rect key_events click_events max_clusters
      zoom_level follow_cursor min_gap_ms = some [] := by
  unfold analyze_activity analyzeUnsorted
  rw [if_pos h]
  rfl

/-- Witness for C8 on an empty track. -/
theorem analyze_activity_min_data_gate_witness :
    analyze_activity [] monC [] [] 6 (3/2) true 4000 = some [] :=
  analyze_activity_min_data_gate [] monC [] [] 6 (3/2) true 4000 (by decide)

/- ── C3: undo/redo round trip ─────────────────────────────────────── -/

theorem getLastD_append_singleton {α : Type} (l : List α) (a d : α) :
    (l ++ [a]).getLastD d = a := by
  simp

theorem editTrace_length (k : List ZoomKeyframe)
    (ms : List (List ZoomKeyframe → List ZoomKeyframe)) :
    (editTrace k ms).length = ms.length := by
  induction ms generalizing k with
  | nil => rfl
  | cons m ms ih => simp [editTrace, ih]

theorem undoN_spec (L T : List (List ZoomKeyframe)) :
    ∀ e : ZoomEngine, e.undo_stack = L ++ T →
    (e.undoN L.length).keyframes = L.getLastD e.keyframes ∧
    (e.undoN L.length).undo_stack = T ∧
    (e.undoN L.length).redo_stack = ((e.keyframes :: L).dropLast).reverse ++ e.redo_stack := by
  induction L with
  | nil =>
      intro e h
      exact ⟨rfl, h, by simp [ZoomEngine.undoN]⟩
  | cons a L ih =>
      intro e h
      obtain ⟨kfs, cz, cx, cy, us, rs⟩ := e
      dsimp only at h
      subst h
      have h2 := ih ⟨a, cz, cx, cy, L ++ T, kfs :: rs⟩ rfl
      have step : ZoomEngine.undoN ⟨kfs, cz, cx, cy, (a :: L) ++ T, rs⟩ (a :: L).length
          = ZoomEngine.undoN ⟨a, cz, cx, cy, L ++ T, kfs :: rs⟩ L.length := rfl
      refine ⟨?_, ?_, ?_⟩
      · rw [step, h2.1]
        exact (List.getLastD_cons kfs a L).symm
      · rw [step, h2.2.1]
      · rw [step, h2.2.2]
        show ((a :: L).dropLast).reverse ++ (kfs :: rs) =
          ((kfs :: (a :: L).dropLast)).reverse ++ rs
        rw [List.reverse_cons, List.append_assoc]
        rfl

theorem redoN_spec (L T : List (List ZoomKeyframe)) :
    ∀ e : ZoomEngine, e.redo_stack = L ++ T →
    (e.redoN L.length).keyframes = L.getLastD e.keyframes ∧
    (e.redoN L.length).redo_stack = T ∧
    (e.redoN L.length).undo_stack = ((e.keyframes :: L).dropLast).reverse ++ e.undo_stack := by
  induction L with
  | nil =>
      intro e h
      exact ⟨rfl, h, by simp [ZoomEngine.redoN]⟩
  | cons a L ih =>
      intro e h
      obtain ⟨kfs, cz, cx, cy, us, rs⟩ := e
      dsimp only at h
      subst h
      have h2 := ih ⟨a, cz, cx, cy, kfs :: us, L ++ T⟩ rfl
      have step : ZoomEngine.redoN ⟨kfs, cz, cx, cy, us, (a :: L) ++ T⟩ (a :: L).length
          = ZoomEngine.redoN ⟨a, cz, cx, cy, kfs :: us, L ++ T⟩ L.length := rfl
      refine ⟨?_, ?_, ?_⟩
      · rw [step, h2.1]
        exact (List.getLastD_cons kfs a L).symm
      · rw [step, h2.2.1]
      · rw [step, h2.2.2]
        show ((a :: L).dropLast).reverse ++ (kfs :: us) =
          ((kfs :: (a :: L).dropLast)).reverse ++ us
        rw [List.reverse_cons, List.append_assoc]
        rfl

theorem applyEdits_spec (ms : List (List ZoomKeyframe → List ZoomKeyframe)) :
    ∀ e : ZoomEngine, ms.length ≤ MAX_UNDO →
    ∃ T, T <+: e.undo_stack ∧
      (e.applyEdits ms).undo_stack = editTrace e.keyframes ms ++ T ∧
      ms.length + T.length =
        max e.undo_stack.length (min (e.undo_stack.length + ms.length) MAX_UNDO) ∧
      (e.applyEdits ms).keyframes = applyMuts e.keyframes ms := by
  induction ms with
  | nil =>
      intro e _
      refine ⟨e.undo_stack, List.prefix_refl _,
        by simp [ZoomEngine.applyEdits, editTrace], ?_, rfl⟩
      simp only [List.length_nil, MAX_UNDO]
      omega
  | cons m ms ih =>
      intro e h
      have hms : ms.length ≤ MAX_UNDO := by
        simp only [List.length_cons] at h
        omega
      have hstack1 : (e.edit m).undo_stack =
          if MAX_UNDO < e.undo_stack.length + 1
          then (e.keyframes :: e.undo_stack).dropLast
          else e.keyframes :: e.undo_stack := by
        simp [ZoomEngine.edit, ZoomEngine.push_undo]
      have hkf1 : (e.edit m).keyframes = m e.keyframes := rfl
      -- in both truncation cases the new stack is e.keyframes consed onto a
      -- front part of the old stack of explicitly known length
      obtain ⟨S1, hS1pre, hS1eq, hS1len⟩ :
          ∃ S1, S1 <+: e.undo_stack ∧ (e.edit m).undo_stack = e.keyframes :: S1 ∧
            S1.length = if MAX_UNDO < e.undo_stack.length + 1
              then e.undo_stack.length - 1 else e.undo_stack.length := by
        rw [hstack1]
        split_ifs with hc
        · cases hS : e.undo_stack with
          | nil =>
              rw [hS] at hc
              simp [MAX_UNDO] at hc
          | cons s0 srest =>
              exact ⟨(s0 :: srest).dropLast, List.dropLast_prefix _, rfl, by simp⟩
        · exact ⟨e.undo_stack, List.prefix_refl _, rfl, rfl⟩
      obtain ⟨T1, hT1pre, hT1stack, hT1len, hT1kf⟩ := ih (e.edit m) hms
      rw [hS1eq] at hT1pre hT1len
      -- T1 is nonempty, hence starts with the snapshot of this first edit
      have hT1ne : 1 ≤ T1.length := by
        simp only [List.length_cons, MAX_UNDO] at hT1len h
        omega
      obtain ⟨u, hu⟩ := hT1pre
      cases hT1 : T1 with
      | nil =>
          rw [hT1] at hT1ne
          simp at hT1ne
      | cons t T2 =>
          rw [hT1, List.cons_append] at hu
          injection hu with h1 h2
          subst h1
          rw [hT1] at hT1stack hT1len
          rw [hkf1] at hT1stack
          refine ⟨T2, (List.IsPrefix.trans ⟨u, h2⟩ hS1pre), ?_, ?_, ?_⟩
          · show (ZoomEngine.applyEdits (e.edit m) ms).undo_stack = _
            rw [hT1stack]
            simp [editTrace, List.append_assoc]
          · by_cases hc2 : MAX_UNDO < e.undo_stack.length + 1
            · rw [if_pos hc2] at hS1len
              simp only [List.length_cons, MAX_UNDO] at hT1len hc2 ⊢
              omega
            · rw [if_neg hc2] at hS1len
              simp only [List.length_cons, MAX_UNDO] at hT1len hc2 ⊢
              omega
          · show (ZoomEngine.applyEdits (e.edit m) ms).keyframes = _
            rw [hT1kf, hkf1]
            rfl

/-- C3 amended: for a starting engine and at most MAX_UNDO = 50 edits, each a
    push_undo followed by a keyframe-list mutation, undoing as many times
    restores the original keyframe list by value, and then redoing as many
    times restores the keyframe list that existed after the last edit. -/
theorem undo_redo_round_trip (ms : List (List ZoomKeyframe → List ZoomKeyframe))
    (e : ZoomEngine) (h : ms.length ≤ MAX_UNDO) :
    ((e.applyEdits ms).undoN ms.length).keyframes = e.keyframes ∧
    (((e.applyEdits ms).undoN ms.length).redoN ms.length).keyframes =
      (e.applyEdits ms).keyframes := by
  cases hms : ms with
  | nil => exact ⟨rfl, rfl⟩
  | cons m ms' =>
      rw [← hms]
      have hne : ms ≠ [] := by
        rw [hms]
        exact List.cons_ne_nil _ _
      obtain ⟨T, _, hstack, _, _⟩ := applyEdits_spec ms e h
      set E := e.applyEdits ms with hE
      set L := editTrace e.keyframes ms with hL
      have hlen : ms.length = L.length := (editTrace_length e.keyframes ms).symm
      have hLlast : L.getLastD E.keyframes = e.keyframes := by
        rw [hL, hms]
        show (editTrace (m e.keyframes) ms' ++ [e.keyframes]).getLastD E.keyframes = _
        exact getLastD_append_singleton _ _ _
      have hLne : L ≠ [] := by
        have : L.length = ms.length := (hlen).symm
        rw [hms] at this
        intro hnil
        rw [hnil] at this
        simp at this
      rw [hlen]
      have hund := undoN_spec L T E hstack
      constructor
      · rw [hund.1, hLlast]
      · -- after the undos, the redo stack holds the edit states newest-last
        have hredo : (E.undoN L.length).redo_stack =
            (L.dropLast.reverse ++ [E.keyframes]) ++ E.redo_stack := by
          rw [hund.2.2]
          cases hLc : L with
          | nil => exact absurd hLc hLne
          | cons l0 Lr =>
              simp [List.dropLast, List.reverse_cons, List.append_assoc]
        have hlen2 : L.length = (L.dropLast.reverse ++ [E.keyframes]).length := by
          simp only [List.length_append, List.length_reverse, List.length_dropLast,
            List.length_singleton]
          have : 1 ≤ L.length := by
            cases hLc : L with
            | nil => exact absurd hLc hLne
            | cons l0 Lr => simp
          omega
        nth_rewrite 2 [hlen2]
        have hred := redoN_spec (L.dropLast.reverse ++ [E.keyframes]) E.redo_stack
          (E.undoN L.length) hredo
        rw [hred.1, getLastD_append_singleton]

/-- Witness for C3 with a single edit. -/
theorem undo_redo_round_trip_witness :
    ((e0.applyEdits [fun _ => [kfT 1]]).undoN 1).keyframes = e0.keyframes ∧
    (((e0.applyEdits [fun _ => [kfT 1]]).undoN 1).redoN 1).keyframes =
      (e0.applyEdits [fun _ => [kfT 1]]).keyframes :=
  undo_redo_round_trip [fun _ => [kfT 1]] e0 (by decide)

/-- C3 counterexample: fifty-one edits overflow the undo depth of 50, so
    fifty-one undos leave the state of the first edit, not the original empty
    keyframe list. -/
theorem undo_after_51_edits_not_restored :
    ms51.length = 51 ∧
    ((e0.applyEdits ms51).undoN 51).keyframes = [kfT 1] ∧
    ¬ ((e0.applyEdits ms51).undoN 51).keyframes = e0.keyframes := by
  refine ⟨by decide, ?_, ?_⟩ <;> with_unfolding_all decide

/- ── Structural lemmas about keyframe emission ────────────────────── -/

theorem zoomedIn_of_one {k : ZoomKeyframe} (h : k.zoom = 1) : zoomedIn k = false := by
  simp only [zoomedIn, h, decide_eq_false_iff_not, not_lt]
  norm_num

theorem emitPans_zoom (zl zi : ℚ) :
    ∀ (cs : List ClusterInfo) (prev : ClusterInfo) (px py : ℚ) (kf : ZoomKeyframe),
      kf ∈ (emitPans zl zi prev px py cs).1 → kf.zoom = zl := by
  intro cs
  induction cs with
  | nil =>
      intro prev px py kf hkf
      simp [emitPans] at hkf
  | cons c cs ih =>
      intro prev px py kf hkf
      simp only [emitPans, List.mem_cons] at hkf
      rcases hkf with h | h
      · rw [h]
      · exact ih c _ _ kf h

theorem emitPans_length (zl zi : ℚ) :
    ∀ (cs : List ClusterInfo) (prev : ClusterInfo) (px py : ℚ),
      (emitPans zl zi prev px py cs).1.length = cs.length := by
  intro cs
  induction cs with
  | nil => intro prev px py; rfl
  | cons c cs ih =>
      intro prev px py
      simp only [emitPans, List.length_cons]
      rw [ih]

theorem emitChain_shape (zl d : ℚ) (first : ClusterInfo) (rest : List ClusterInfo) :
    ∃ kin pans kout, emitChain zl d (first :: rest) = kin :: (pans ++ [kout]) ∧
      pans.length = rest.length ∧ kout.zoom = 1 ∧
      (∀ kf ∈ pans, kf.zoom = zl) ∧ kin.zoom = zl := by
  refine ⟨_, _, _, rfl, emitPans_length zl first.zoom_in_time rest first
    first.pan_x first.pan_y, rfl, ?_, rfl⟩
  exact fun kf h =>
    emitPans_zoom zl first.zoom_in_time rest first first.pan_x first.pan_y kf h

theorem emitChain_zoom_mem (zl d : ℚ) (c : List ClusterInfo) (kf : ZoomKeyframe)
    (h : kf ∈ emitChain zl d c) : kf.zoom = zl ∨ kf.zoom = 1 := by
  cases c with
  | nil => simp [emitChain] at h
  | cons first rest =>
      obtain ⟨kin, pans, kout, heq, _, hz1, hpans, hzin⟩ := emitChain_shape zl d first rest
      rw [heq] at h
      simp only [List.mem_cons, List.mem_append, List.mem_singleton] at h
      rcases h with h | h | h | h
      · left; rw [h]; exact hzin
      · left; exact hpans kf h
      · right; rw [h]; exact hz1
      · cases h

theorem keyframesOfChains_zoom_mem (zl d : ℚ) :
    ∀ (chains : List (List ClusterInfo)) (kf : ZoomKeyframe),
      kf ∈ keyframesOfChains zl d chains → kf.zoom = zl ∨ kf.zoom = 1 := by
  intro chains
  induction chains with
  | nil => intro kf h; simp [keyframesOfChains] at h
  | cons c cs ih =>
      intro kf h
      simp only [keyframesOfChains, List.mem_append] at h
      rcases h with h | h
      · exact emitChain_zoom_mem zl d c kf h
      · exact ih kf h

theorem emitChain_countP_le (zl d : ℚ) (c : List ClusterInfo) :
    (emitChain zl d c).countP zoomedIn ≤ c.length := by
  cases c with
  | nil => simp [emitChain]
  | cons first rest =>
      obtain ⟨kin, pans, kout, heq, hlen, hz1, _, _⟩ := emitChain_shape zl d first rest
      rw [heq]
      have h0 : zoomedIn kout = false := zoomedIn_of_one hz1
      have hp := List.countP_le_length (p := zoomedIn) (l := pans)
      simp only [List.countP_cons, List.countP_append, List.countP_nil, h0,
        Bool.false_eq_true, if_false, List.length_cons]
      split_ifs <;> omega

theorem keyframesOfChains_countP (zl d : ℚ) :
    ∀ chains : List (List ClusterInfo),
      (keyframesOfChains zl d chains).countP zoomedIn ≤ (chains.map List.length).sum := by
  intro chains
  induction chains with
  | nil => simp [keyframesOfChains]
  | cons c cs ih =>
      simp only [keyframesOfChains, List.countP_append, List.map_cons, List.sum_cons]
      exact Nat.add_le_add (emitChain_countP_le zl d c) ih

theorem chainsAux_sum_lengths :
    ∀ (rest : List ClusterInfo) (prev : ClusterInfo) (current : List ClusterInfo),
      ((chainsAux prev current rest).map List.length).sum = current.length + rest.length := by
  intro rest
  induction rest with
  | nil =>
      intro prev current
      simp [chainsAux]
  | cons ci rest ih =>
      intro prev current
      simp only [chainsAux]
      split_ifs with hc
      · rw [ih ci (current ++ [ci])]
        simp only [List.length_append, List.length_singleton, List.length_cons,
          List.length_nil]
        omega
      · simp only [List.map_cons, List.sum_cons]
        rw [ih ci [ci]]
        simp only [List.length_singleton, List.length_cons, List.length_nil]
        omega

theorem buildChains_sum_lengths (infos : List ClusterInfo) :
    ((buildChains infos).map List.length).sum = infos.length := by
  cases infos with
  | nil => rfl
  | cons i0 rest =>
      simp only [buildChains]
      rw [chainsAux_sum_lengths rest i0 [i0]]
      simp only [List.length_singleton, List.length_cons, List.length_nil]
      omega

theorem noDanglingZoomIn_append (l1 l2 : List ZoomKeyframe)
    (h1 : l2.any (fun j => !(zoomedIn j)) = true) (h2 : noDanglingZoomIn l2 = true) :
    noDanglingZoomIn (l1 ++ l2) = true := by
  induction l1 with
  | nil => simpa using h2
  | cons k l1 ih =>
      simp only [List.cons_append, noDanglingZoomIn, Bool.and_eq_true, Bool.or_eq_true]
      refine ⟨Or.inr ?_, ih⟩
      simp [List.append_eq, List.any_append, h1]

theorem keyframesOfChains_noDangling (zl d : ℚ) :
    ∀ chains : List (List ClusterInfo),
      noDanglingZoomIn (keyframesOfChains zl d chains) = true := by
  intro chains
  induction chains with
  | nil => rfl
  | cons c cs ih =>
      cases c with
      | nil => simpa [keyframesOfChains, emitChain] using ih
      | cons first rest =>
          obtain ⟨kin, pans, kout, heq, _, hz1, _, _⟩ := emitChain_shape zl d first rest
          show noDanglingZoomIn (emitChain zl d (first :: rest) ++
            keyframesOfChains zl d cs) = true
          rw [heq]
          have hre : (kin :: (pans ++ [kout])) ++ keyframesOfChains zl d cs =
              (kin :: pans) ++ (kout :: keyframesOfChains zl d cs) := by
            simp
          rw [hre]
          have h0 : zoomedIn kout = false := zoomedIn_of_one hz1
          apply noDanglingZoomIn_append
          · simp [List.any_cons, h0]
          · simp only [noDanglingZoomIn, Bool.and_eq_true, Bool.or_eq_true]
            refine ⟨Or.inl ?_, ih⟩
            rw [h0]
            rfl

/-- The shape of every successful analyzeUnsorted run: either one of the
    early empty returns, or the keyframes of the chains built from at most
    max_clusters clusters. -/
theorem analyzeUnsorted_shape (mouse_track : List MousePosition)
    (monitor_rect : MonitorRect) (key_events : List KeyEvent)
    (click_events : List ClickEvent) (max_clusters : ℕ) (zoom_level : ℚ)
    (follow_cursor : Bool) (min_gap_ms : ℚ) (out : List ZoomKeyframe)
    (h : analyzeUnsorted mouse_track monitor_rect key_events click_events max_clusters
      zoom_level follow_cursor min_gap_ms = some out) :
    out = [] ∨ ∃ (d : ℚ) (infos : List ClusterInfo), infos.length ≤ max_clusters ∧
      out = keyframesOfChains zoom_level d (buildChains infos) := by
  simp only [analyzeUnsorted] at h
  split at h
  · injection h with h
    exact Or.inl h.symm
  · split at h
    · injection h with h
      exact Or.inl h.symm
    · split at h
      · injection h with h
        exact Or.inl h.symm
      · split at h
        · cases h
        · injection h with h
          refine Or.inr ⟨_, _, ?_, h.symm⟩
          rw [List.length_map, sortOn_length]
          exact List.length_take_le _ _

/- ── C9: zoom values of analyzer keyframes ────────────────────────── -/

/-- C9: every keyframe returned by analyze_activity has zoom exactly the
    configured zoom_level (zoom-in and pan keyframes) or exactly 1 (zoom-out
    keyframes); no other zoom value is ever emitted. -/
theorem analyzer_zoom_values (mouse_track : List MousePosition)
    (monitor_rect : MonitorRect) (key_events : List KeyEvent)
    (click_events : List ClickEvent) (max_clusters : ℕ) (zoom_level : ℚ)
    (follow_cursor : Bool) (min_gap_ms : ℚ) (out : List ZoomKeyframe)
    (kf : ZoomKeyframe)
    (h : analyze_activity mouse_track monitor_rect key_events click_events max_clusters
      zoom_level follow_cursor min_gap_ms = some out) (hkf : kf ∈ out) :
    kf.zoom = zoom_level ∨ kf.zoom = 1 := by
  unfold analyze_activity at h
  cases hu : analyzeUnsorted mouse_track monitor_rect key_events click_events
      max_clusters zoom_level follow_cursor min_gap_ms with
  | none => rw [hu] at h; cases h
  | some l =>
      rw [hu] at h
      simp only [Option.map_some'] at h
      injection h with h
      rw [← h, mem_sortOn] at hkf
      rcases analyzeUnsorted_shape mouse_track monitor_rect key_events click_events
        max_clusters zoom_level follow_cursor min_gap_ms l hu with hnil | ⟨d, infos, _, hout⟩
      · rw [hnil] at hkf
        cases hkf
      · rw [hout] at hkf
        exact keyframesOfChains_zoom_mem zoom_level d (buildChains infos) kf hkf

/-- Witness for C9 at the single-click run. -/
theorem analyzer_zoom_values_witness :
    (⟨"", 0, 3/2, 1/2, 1/2, 600, "Click cluster detected"⟩ : ZoomKeyframe).zoom = 3/2 ∨
    (⟨"", 0, 3/2, 1/2, 1/2, 600, "Click cluster detected"⟩ : ZoomKeyframe).zoom = 1 :=
  analyzer_zoom_values trackC monC [] [⟨960, 540, 5⟩] 6 (3/2) true 4000
    [⟨"", 0, 3/2, 1/2, 1/2, 600, "Click cluster detected"⟩,
     ⟨"", 10, 1, 1/2, 1/2, 1200, "Zoom out after: click cluster detected"⟩]
    ⟨"", 0, 3/2, 1/2, 1/2, 600, "Click cluster detected"⟩
    (by with_unfolding_all decide) (by with_unfolding_all decide)

/- ── C5: cluster cap ──────────────────────────────────────────────── -/

/-- C5: the analyzer output never represents more than max_clusters distinct
    zoom-in clusters, counting a chain opening zoom-in as one cluster and its
    chained pan keyframes (reason starting Pan to:) as part of that opening
    cluster. -/
theorem analyzer_cluster_cap (mouse_track : List MousePosition)
    (monitor_rect : MonitorRect) (key_events : List KeyEvent)
    (click_events : List ClickEvent) (max_clusters : ℕ) (zoom_level : ℚ)
    (follow_cursor : Bool) (min_gap_ms : ℚ) (out : List ZoomKeyframe)
    (h : analyze_activity mouse_track monitor_rect key_events click_events max_clusters
      zoom_level follow_cursor min_gap_ms = some out) :
    zoomInCount out ≤ max_clusters := by
  unfold analyze_activity at h
  cases hu : analyzeUnsorted mouse_track monitor_rect key_events click_events
      max_clusters zoom_level follow_cursor min_gap_ms with
  | none => rw [hu] at h; cases h
  | some l =>
      rw [hu] at h
      simp only [Option.map_some'] at h
      injection h with h
      rw [← h]
      unfold zoomInCount
      rw [countP_sortOn]
      have hmono : l.countP opensCluster ≤ l.countP zoomedIn := by
        apply List.countP_mono_left
        intro a _ ha
        simp only [opensCluster, Bool.and_eq_true] at ha
        exact ha.1
      rcases analyzeUnsorted_shape mouse_track monitor_rect key_events click_events
        max_clusters zoom_level follow_cursor min_gap_ms l hu with
        hnil | ⟨d, infos, hle, hout⟩
      · rw [hnil]
        simp
      · refine le_trans hmono ?_
        rw [hout]
        refine le_trans (keyframesOfChains_countP zoom_level d (buildChains infos)) ?_
        rw [buildChains_sum_lengths]
        exact hle

/-- Witness for C5 at the single-click run. -/
theorem analyzer_cluster_cap_witness :
    zoomInCount [⟨"", 0, 3/2, 1/2, 1/2, 600, "Click cluster detected"⟩,
      ⟨"", 10, 1, 1/2, 1/2, 1200, "Zoom out after: click cluster detected"⟩] ≤ 6 :=
  analyzer_cluster_cap trackC monC [] [⟨960, 540, 5⟩] 6 (3/2) true 4000
    [⟨"", 0, 3/2, 1/2, 1/2, 600, "Click cluster detected"⟩,
     ⟨"", 10, 1, 1/2, 1/2, 1200, "Zoom out after: click cluster detected"⟩]
    (by with_unfolding_all decide)

/- ── C2: dangling zoom-ins ────────────────────────────────────────── -/

/-- C2 amended: in the emission order (the keyframe list before the final
    timestamp sort), every keyframe with zoom above 1.01 is followed later by
    a keyframe with zoom at most 1.01: each chain closes with its zoom-out. -/
theorem analyzer_emission_no_dangling (mouse_track : List MousePosition)
    (monitor_rect : MonitorRect) (key_events : List KeyEvent)
    (click_events : List ClickEvent) (max_clusters : ℕ) (zoom_level : ℚ)
    (follow_cursor : Bool) (min_gap_ms : ℚ) (out : List ZoomKeyframe)
    (h : analyzeUnsorted mouse_track monitor_rect key_events click_events max_clusters
      zoom_level follow_cursor min_gap_ms = some out) :
    noDanglingZoomIn out = true := by
  rcases analyzeUnsorted_shape mouse_track monitor_rect key_events click_events
    max_clusters zoom_level follow_cursor min_gap_ms out h with hnil | ⟨d, infos, _, hout⟩
  · rw [hnil]
    rfl
  · rw [hout]
    exact keyframesOfChains_noDangling zoom_level d (buildChains infos)

/-- Witness for the amended C2 at a one-keystroke run. -/
theorem analyzer_emission_no_dangling_witness :
    noDanglingZoomIn [⟨"", 0, 3/2, 1/2, 1/2, 600, "Typing activity detected"⟩,
      ⟨"", 10, 1, 1/2, 1/2, 1200, "Zoom out after: typing activity detected"⟩] = true :=
  analyzer_emission_no_dangling trackC monC [⟨0⟩] [] 6 (3/2) true 4000
    [⟨"", 0, 3/2, 1/2, 1/2, 600, "Typing activity detected"⟩,
     ⟨"", 10, 1, 1/2, 1/2, 1200, "Zoom out after: typing activity detected"⟩]
    (by with_unfolding_all decide)

/-- C2 counterexample: on a 10 ms recording with a click at 5 ms, a keystroke
    at 0 ms and min_gap_ms 0, the zoom-out timestamp is clamped to the
    recording duration 10 while the chained pan keeps timestamp 600, so after
    the final sort the output ends on a pan with zoom 3/2: a dangling
    zoom-in. -/
theorem analyzer_sorted_output_dangles :
    analyze_activity trackC monC [⟨0⟩] [⟨960, 540, 5⟩] 6 (3/2) true 0 =
      some [⟨"", 0, 3/2, 1/2, 1/2, 600, "Click cluster detected"⟩,
            ⟨"", 10, 1, 1/2, 1/2, 1200, "Zoom out after: typing activity detected"⟩,
            ⟨"", 600, 3/2, 1/2, 1/2, 400, "Pan to: typing activity detected"⟩] ∧
    noDanglingZoomIn [⟨"", 0, 3/2, 1/2, 1/2, 600, "Click cluster detected"⟩,
            ⟨"", 10, 1, 1/2, 1/2, 1200, "Zoom out after: typing activity detected"⟩,
            ⟨"", 600, 3/2, 1/2, 1/2, 400, "Pan to: typing activity detected"⟩] = false := by
  constructor <;> with_unfolding_all decide

/- ── C6: single click behaviour ───────────────────────────────────── -/

/-- C6 evidence: a single click on an otherwise quiet recording produces a
    click cluster: both emitted keyframes mention click in their reasons,
    although CLICK_MIN_COUNT is documented as requiring a burst of at least
    two clicks. -/
theorem single_click_yields_click_keyframes :
    analyze_activity trackC monC [] [⟨960, 540, 5⟩] 6 (3/2) true 4000 =
      some [⟨"", 0, 3/2, 1/2, 1/2, 600, "Click cluster detected"⟩,
            ⟨"", 10, 1, 1/2, 1/2, 1200, "Zoom out after: click cluster detected"⟩] ∧
    ([⟨"", 0, 3/2, 1/2, 1/2, 600, "Click cluster detected"⟩,
      ⟨"", 10, 1, 1/2, 1/2, 1200, "Zoom out after: click cluster detected"⟩].filter
        mentions_click).length = 2 := by
  constructor <;> with_unfolding_all decide

/- ── C7: anticipation ─────────────────────────────────────────────── -/

/-- C7 counterexample: a typing burst whose first keystroke is at T = 0 gets
    its zoom-in at timestamp 0 with duration 600, so timestamp plus duration
    is 600, later than T + WINDOW_MS = 500. -/
theorem typing_burst_at_zero_completes_late :
    analyze_activity trackC monC [⟨0⟩, ⟨5⟩] [] 6 (3/2) true 4000 =
      some [⟨"", 0, 3/2, 1/2, 1/2, 600, "Typing activity detected"⟩,
            ⟨"", 10, 1, 1/2, 1/2, 1200, "Zoom out after: typing activity detected"⟩] ∧
    zoomedIn ⟨"", 0, 3/2, 1/2, 1/2, 600, "Typing activity detected"⟩ = true ∧
    ¬ ((⟨"", 0, 3/2, 1/2, 1/2, 600, "Typing activity detected"⟩ : ZoomKeyframe).timestamp +
        (⟨"", 0, 3/2, 1/2, 1/2, 600, "Typing activity detected"⟩ : ZoomKeyframe).duration ≤
        0 + 500) := by
  refine ⟨?_, ?_, ?_⟩ <;> with_unfolding_all decide

/-- C7 amended, verified at the isolated burst beginning at T = 1000 of
    track16: the zoom-in completes at 550 + 600 = 1150, no later than
    T + WINDOW_MS = 1500. -/
theorem typing_burst_anticipation_at_1000 :
    analyze_activity track16 monC keysB [] 6 (3/2) true 4000 =
      some [⟨"", 550, 3/2, 1/2, 1/2, 600, "Typing activity detected"⟩,
            ⟨"", 1600, 1, 1/2, 1/2, 1200, "Zoom out after: typing activity detected"⟩] ∧
    (⟨"", 550, 3/2, 1/2, 1/2, 600, "Typing activity detected"⟩ : ZoomKeyframe).timestamp +
      (⟨"", 550, 3/2, 1/2, 1/2, 600, "Typing activity detected"⟩ : ZoomKeyframe).duration ≤
      1000 + 500 := by
  constructor <;> with_unfolding_all decide

end FollowCursor
